import Mathlib

/-!
Verification of the vrack2-modbus core against its specification.

The development shallowly embeds the two components of the repository:

* the Modbus RTU frame codec (class `ModbusRTU`): CRC16 computation,
  CRC trailer handling, completeness detection, request construction and
  response parsing.  Byte buffers are modelled as `List Nat` whose entries
  are intended to be bytes (`< 256`); machine arithmetic is `Nat` with the
  masks the source applies.  Node `Buffer` accessors are embedded by their
  documented semantics (`readUInt16LE o = b[o] + b[o+1]*256`,
  `writeUInt16LE v = [v % 256, (v >>> 8) % 256]`, …).

* the bus controller (`DeviceRTU`): the control-handoff state machine
  (`inputBus`/`iGate`/`oGate`) over an explicit session-state record, and
  the action queue (`actionAddQueue`/`runQueue`) over an explicit
  insertion-ordered association list mirroring the JavaScript `Map`.
-/

set_option maxRecDepth 100000

/-- Decidable equality for `Except`, used to evaluate the embedded codec on
concrete frames. -/
instance {ε α : Type} [DecidableEq ε] [DecidableEq α] : DecidableEq (Except ε α) := fun a b =>
  match a, b with
  | .error x, .error y =>
    if h : x = y then isTrue (by rw [h]) else isFalse (fun hc => by cases hc; exact h rfl)
  | .error _, .ok _ => isFalse (fun hc => by cases hc)
  | .ok _, .error _ => isFalse (fun hc => by cases hc)
  | .ok x, .ok y =>
    if h : x = y then isTrue (by rw [h]) else isFalse (fun hc => by cases hc; exact h rfl)

namespace ModbusRTU

/-- One iteration of the inner CRC loop of `ModbusRTU.calculateCRC16`:
`if ((crc & 0x0001) !== 0) crc = (crc >> 1) ^ 0xA001; else crc = crc >> 1`. -/
def crcRound (crc : Nat) : Nat :=
  if crc &&& 1 ≠ 0 then (crc >>> 1) ^^^ 0xA001 else crc >>> 1

/-- The inner `for (let j = 0; j < 8; j++)` loop of `calculateCRC16`,
run for the given number of remaining iterations. -/
def crcLoop : Nat → Nat → Nat
  | crc, 0 => crc
  | crc, j + 1 => crcLoop (crcRound crc) j

/-- Embedding of `ModbusRTU.calculateCRC16`: seed `0xFFFF`, xor each byte
into the running value, then run the 8-round inner loop. -/
def calculateCRC16 (buffer : List Nat) : Nat :=
  buffer.foldl (fun crc b => crcLoop (crc ^^^ b) 8) 0xFFFF

/-- Node `Buffer.writeUInt16LE`: the two bytes stored, low byte first. -/
def writeUInt16LE (v : Nat) : List Nat :=
  [v % 256, (v >>> 8) % 256]

/-- Node `Buffer.readUInt16LE buffer off`: `buffer[off] + buffer[off+1] * 256`. -/
def readUInt16LE (b : List Nat) (off : Nat) : Nat :=
  b.getD off 0 + b.getD (off + 1) 0 * 256

/-- Embedding of `ModbusRTU.addCRC`: append the CRC16 of `data`,
little-endian, as two trailing bytes. -/
def addCRC (data : List Nat) : List Nat :=
  data ++ writeUInt16LE (calculateCRC16 data)

/-- Embedding of `ModbusRTU.verifyCRC`: false for buffers shorter than 2,
otherwise compare the little-endian trailing two bytes with the CRC16 of
everything preceding them (`buffer.subarray(0, -2)` is `take (len - 2)`). -/
def verifyCRC (buffer : List Nat) : Bool :=
  if buffer.length < 2 then false
  else decide (readUInt16LE buffer (buffer.length - 2)
    = calculateCRC16 (buffer.take (buffer.length - 2)))

/-- Embedding of the `ModbusResponse` interface (`data` is the payload). -/
structure ModbusResponse where
  slaveId : Nat
  functionCode : Nat
  byteCount : Nat
  data : List Nat
  exceptionCode : Option Nat
deriving DecidableEq, Repr

/-- The error kinds registered by the source with `ErrorManager.register`. -/
inductive ModbusError where
  | crcCheckFailed
  | packetTooShort
  | writeDataRequiredCoils
  | coilsCountInvalid
  | writeDataRequiredRegisters
  | registersCountInvalid
  | unsupportedFunctionCode
deriving DecidableEq, Repr

/-- Embedding of `ModbusRTU.parseResponse`.  Thrown errors become
`Except.error`.  `buffer.subarray(2, -2)` is `(take (len-2)).drop 2` and
`buffer.subarray(3, -2)` is `(take (len-2)).drop 3`. -/
def parseResponse (buffer : List Nat) : Except ModbusError ModbusResponse :=
  if buffer.length < 4 then .error .packetTooShort
  else if ¬ verifyCRC buffer then .error .crcCheckFailed
  else
    let slaveId := buffer.getD 0 0
    let functionCode := buffer.getD 1 0
    if functionCode &&& 0x80 ≠ 0 then
      .ok ⟨slaveId, functionCode &&& 0x7F, 0, [], some (buffer.getD 2 0)⟩
    else
      if functionCode = 0x01 ∨ functionCode = 0x02 ∨ functionCode = 0x03 ∨ functionCode = 0x04 then
        .ok ⟨slaveId, functionCode, buffer.getD 2 0, (buffer.take (buffer.length - 2)).drop 3, none⟩
      else
        .ok ⟨slaveId, functionCode, buffer.length - 4, (buffer.take (buffer.length - 2)).drop 2, none⟩

/-- Embedding of `ModbusRTU.isCompletePacket`.  For the read-class codes the
source returns `length === byte2 + 5` only when `length > 5`; otherwise the
`case` falls through into `default`, which returns `length === 8`. -/
def isCompletePacket (buffer : List Nat) : Bool :=
  if buffer.length < 4 then false
  else
    let fc := buffer.getD 1 0
    if fc = 0x01 ∨ fc = 0x02 ∨ fc = 0x03 ∨ fc = 0x04 then
      if buffer.length > 5 then decide (buffer.length = buffer.getD 2 0 + 5)
      else decide (buffer.length = 8)
    else decide (buffer.length = 8)

/-- Node `Buffer.writeUInt16BE`: the two bytes stored, high byte first. -/
def writeUInt16BE (v : Nat) : List Nat :=
  [(v >>> 8) % 256, v % 256]

/-- The coil-packing loop of the `0x0F` branch of `makeRequest`: byte
`byteIndex` holds bit `bitIndex` set iff entry `byteIndex*8 + bitIndex` of
`w` exists (index below `quantity`) and is truthy (nonzero). -/
def packCoils (w : List Nat) (quantity : Nat) : List Nat :=
  (List.range ((quantity + 7) / 8)).map (fun byteIndex =>
    (List.range 8).foldl (fun acc bitIndex =>
      if byteIndex * 8 + bitIndex < quantity ∧ w.getD (byteIndex * 8 + bitIndex) 0 ≠ 0 then
        acc ||| (1 <<< bitIndex)
      else acc) 0)

/-- Embedding of `ModbusRTU.makeRequest`.  The source masks `slaveId` with
`0xFF` and `address` with `0xFFFF`, builds the function-specific body, then
writes the common header and appends the CRC.  `writeData` absent (or not an
array) is modelled by `none`.  In the `0x0F`/`0x10` branches the source
overwrites `quantity` with `writeData.length` whenever they differ, so the
built frame uses `w.length` throughout.  Register values are written
big-endian masked to 16 bits (the `typeof` guard never skips a `Nat`). -/
def makeRequest (slaveId0 functionCode address0 quantity : Nat)
    (writeData : Option (List Nat) := none) : Except ModbusError (List Nat) :=
  let slaveId := slaveId0 &&& 0xFF
  let address := address0 &&& 0xFFFF
  match functionCode with
  | 0x01 | 0x02 | 0x03 | 0x04 =>
    .ok (addCRC (slaveId :: functionCode :: (writeUInt16BE address ++ writeUInt16BE quantity)))
  | 0x05 =>
    .ok (addCRC (slaveId :: functionCode ::
      (writeUInt16BE address ++ writeUInt16BE (if quantity ≠ 0 then 0xFF00 else 0x0000))))
  | 0x06 =>
    .ok (addCRC (slaveId :: functionCode :: (writeUInt16BE address ++ writeUInt16BE quantity)))
  | 0x0F =>
    match writeData with
    | none => .error .writeDataRequiredCoils
    | some w =>
      if w.length < 1 ∨ w.length > 1968 then .error .coilsCountInvalid
      else
        let q := w.length
        let coilBytes := (q + 7) / 8
        .ok (addCRC (slaveId :: functionCode ::
          (writeUInt16BE address ++ writeUInt16BE q ++ (coilBytes :: packCoils w q))))
  | 0x10 =>
    match writeData with
    | none => .error .writeDataRequiredRegisters
    | some w =>
      if w.length < 1 ∨ w.length > 123 then .error .registersCountInvalid
      else
        let q := w.length
        let registerBytes := q * 2
        .ok (addCRC (slaveId :: functionCode ::
          (writeUInt16BE address ++ writeUInt16BE q ++
            (registerBytes :: (w.map (fun v => writeUInt16BE (v &&& 0xFFFF))).flatten))))
  | _ => .error .unsupportedFunctionCode

/-- Modelled from the spec: `calculateCRC16` reference definition, for the
refinement claim about the CRC algorithm — seed `0xFFFF`; for each byte,
exclusive-or it in, then eight times: when the low bit is set, halve and
exclusive-or with `0xA001`, otherwise just halve. -/
def crcSpecRound (c : Nat) : Nat :=
  if c.testBit 0 then c / 2 ^^^ 0xA001 else c / 2

/-- Modelled from the spec: the full reference CRC16, folding
`crcSpecRound` eight times per input byte over the buffer. -/
def modbusCRC16Spec (bytes : List Nat) : Nat :=
  bytes.foldl (fun c b => crcSpecRound^[8] (c ^^^ b)) 0xFFFF

end ModbusRTU

namespace DeviceRTU

/-- Session state of a `DeviceRTU` instance.  `process` and `progress` are
the two distinct keys the source uses on `this.shares` (`shares` declares
`process: false`; `iGate`/`oGate` assign `shares.progress`).  `timerHandle`
records whether `this.offlineTimer` holds a truthy handle, `timerArmed`
whether the scheduled offline callback is still pending (`clearTimeout`
cancels the callback but the source never zeroes the handle).  `renders`
counts `this.render()` notifications and `errors` counts `this.error(...)`
log calls. -/
structure DState where
  process : Bool
  progress : Bool
  online : Bool
  timerHandle : Bool
  timerArmed : Bool
  renders : Nat
  errors : Nat
deriving DecidableEq, Repr

/-- Embedding of `DeviceRTU.iGate`: cancel the offline timer when a handle
is present, set `shares.progress = true`, render. -/
def iGate (s : DState) : DState :=
  { s with
    timerArmed := if s.timerHandle then false else s.timerArmed
    progress := true
    renders := s.renders + 1 }

/-- Embedding of `DeviceRTU.oGate`: store a fresh armed timer handle, set
`shares.progress = false`, render. -/
def oGate (s : DState) : DState :=
  { s with
    timerHandle := true
    timerArmed := true
    progress := false
    renders := s.renders + 1 }

/-- The offline timer callback installed by `oGate`: when it fires it zeroes
the handle and sets `online = false`. -/
def timerFire (s : DState) : DState :=
  { s with timerHandle := false, timerArmed := false, online := false }

/-- Embedding of `DeviceRTU.inputBus` for one control handoff.  `updateOk`
abstracts whether the `try` block (`runQueue` followed by the overridable
`update`) succeeds; `runQueue` itself catches every task error, so the flag
is the poll routine's outcome.  The returned `Bool` is true when the error
is rethrown to the caller: in that case the source skips `oGate`. -/
def inputBus (s : DState) (updateOk : Bool) : DState × Bool :=
  if s.process then (s, false)
  else
    let s1 := iGate s
    if updateOk then (oGate { s1 with online := true }, false)
    else ({ s1 with online := false, errors := s1.errors + 1 }, true)

/-- Outcome of a queued action's `method()`: the value passed to `resolve`,
or the thrown error passed to `reject`. -/
inductive QRes where
  | resolved (v : Nat)
  | rejected (e : Nat)
deriving DecidableEq, Repr

/-- A queue entry's task.  `run` is the outcome of executing `method()`;
`spawns` are the tasks the method itself enqueues through
`actionAddQueue` while it runs (the only queue mutation the class API
offers to a task). -/
inductive QTask where
  | mk (run : QRes) (spawns : List QTask)

/-- Outcome of a task. -/
def QTask.run : QTask → QRes
  | .mk r _ => r

/-- Tasks enqueued by the task while it executes. -/
def QTask.spawns : QTask → List QTask
  | .mk _ s => s

/-- Queue state of a `DeviceRTU`: the `Map<number, ...>` as an
insertion-ordered association list, plus `queueIndex`. -/
structure QState where
  queue : List (Nat × QTask)
  queueIndex : Nat

/-- Embedding of `DeviceRTU.actionAddQueue` composed with `getQueueIndex`:
`queue.set(queueIndex++, entry)`.  The key is fresh (the index is monotonic
and above every existing key), so the `Map.set` appends in insertion
order. -/
def actionAddQueue (t : QTask) (s : QState) : QState :=
  ⟨s.queue ++ [(s.queueIndex, t)], s.queueIndex + 1⟩

/-- The `for (const key of keys)` loop of `DeviceRTU.runQueue` over the
snapshot of keys: look the key up (skip when already gone), execute the
task (applying its enqueues), record the settled result, then
`queue.delete(key)`.  Returns the final state and the list of
resolve/reject events in execution order. -/
def runQueueGo : List Nat → QState → QState × List (Nat × QRes)
  | [], s => (s, [])
  | k :: ks, s =>
    match s.queue.lookup k with
    | none => runQueueGo ks s
    | some t =>
      let s1 := t.spawns.foldl (fun acc tsk => actionAddQueue tsk acc) s
      let s2 : QState := ⟨s1.queue.filter (fun e => e.1 != k), s1.queueIndex⟩
      ((runQueueGo ks s2).1, (k, t.run) :: (runQueueGo ks s2).2)

/-- Embedding of `DeviceRTU.runQueue`: return early on an empty queue,
otherwise snapshot the keys (`[...this.queue.keys()]`) and drain them. -/
def runQueue (s : QState) : QState × List (Nat × QRes) :=
  if s.queue.isEmpty then (s, [])
  else runQueueGo (s.queue.map Prod.fst) s

end DeviceRTU

namespace ModbusRTU

theorem crcRound_eq_spec (c : Nat) : crcRound c = crcSpecRound c := by
  simp only [crcRound, crcSpecRound, Nat.and_one_is_mod, Nat.shiftRight_eq_div_pow,
    Nat.testBit_zero, pow_one]
  rcases Nat.mod_two_eq_zero_or_one c with h | h <;> simp [h]

theorem crcLoop_eq_iterate (j : Nat) : ∀ c, crcLoop c j = crcSpecRound^[j] c := by
  induction j with
  | zero => intro c; rfl
  | succ j ih =>
    intro c
    rw [show crcLoop c (j + 1) = crcLoop (crcRound c) j from rfl, ih,
      crcRound_eq_spec, Function.iterate_succ_apply]

/-- C9: the source `calculateCRC16` does implement the standard Modbus CRC16
reference algorithm (seed `0xFFFF`, polynomial `0xA001`, LSB-first rounds),
but on `[0x01,0x03,0x00,0x00,0x00,0x02]` it returns `0x0BC4`, the value
whose little-endian wire encoding is the familiar trailer `C4 0B`; the
spec's quoted numeric value `0xC40B` is the byte-swapped wire order. -/
theorem calculateCRC16_spec :
    (∀ buffer : List Nat, calculateCRC16 buffer = modbusCRC16Spec buffer)
    ∧ calculateCRC16 [0x01, 0x03, 0x00, 0x00, 0x00, 0x02] = 0x0BC4 := by
  constructor
  · intro buffer
    unfold calculateCRC16 modbusCRC16Spec
    congr 1
    funext crc b
    exact crcLoop_eq_iterate 8 (crc ^^^ b)
  · decide

/-- C9 counterexample: `calculateCRC16` on the spec's example input does not
return the spec's quoted value `0xC40B`; it returns `0x0BC4`. -/
theorem calculateCRC16_example_claim_false :
    calculateCRC16 [0x01, 0x03, 0x00, 0x00, 0x00, 0x02] ≠ 0xC40B
    ∧ calculateCRC16 [0x01, 0x03, 0x00, 0x00, 0x00, 0x02] = 0x0BC4 := by
  decide

/-- C10: `parseResponse` never compares the declared byte-count byte with
the actual payload length: the CRC-valid read-class frame
`addCRC [1,3,5,0,0] = [1,3,5,0,0,9,133]` declares 5 data bytes but carries
2, and `parseResponse` still returns it, with `byteCount = 5` yet a 2-byte
payload (`length - 5`). -/
theorem parseResponse_skips_byteCount_check :
    ∃ b : List Nat, (∀ x ∈ b, x < 256) ∧ 4 ≤ b.length ∧ verifyCRC b = true
      ∧ b.getD 1 0 = 0x03
      ∧ ∃ r : ModbusResponse, parseResponse b = .ok r ∧ r.exceptionCode = none
        ∧ r.byteCount = 5 ∧ r.data.length = b.length - 5 ∧ r.byteCount ≠ r.data.length := by
  refine ⟨[1, 3, 5, 0, 0, 9, 133], by decide, by decide, by decide, by decide,
    ⟨1, 3, 5, [0, 0], none⟩, by decide, by decide, by decide, by decide, by decide⟩

/-- C3 counterexample: a read-class buffer of total length 5 whose declared
byte-count field is 0 has total length equal to declared + 5, yet
`isCompletePacket` returns false (the source only compares against the
declared length when more than 5 bytes are present; at 4 or 5 bytes the
`switch` falls through to `length === 8`). -/
theorem isCompletePacket_claim_false :
    ([1, 1, 0, 170, 187] : List Nat).getD 1 0 = 0x01
    ∧ ([1, 1, 0, 170, 187] : List Nat).length = ([1, 1, 0, 170, 187] : List Nat).getD 2 0 + 5
    ∧ isCompletePacket [1, 1, 0, 170, 187] = false := by
  decide

/-- C3 amended: `isCompletePacket` is false below 4 bytes; for read-class
function codes it equals `length = declared + 5` only once more than 5
bytes are present, while at length 4 or 5 it falls through and returns
false; for every other function code it is true iff the length is exactly
8. -/
theorem isCompletePacket_cases (b : List Nat) :
    (b.length < 4 → isCompletePacket b = false)
    ∧ ((b.getD 1 0 = 0x01 ∨ b.getD 1 0 = 0x02 ∨ b.getD 1 0 = 0x03 ∨ b.getD 1 0 = 0x04) →
        (5 < b.length → (isCompletePacket b = true ↔ b.length = b.getD 2 0 + 5))
        ∧ ((b.length = 4 ∨ b.length = 5) → isCompletePacket b = false))
    ∧ (4 ≤ b.length →
        ¬(b.getD 1 0 = 0x01 ∨ b.getD 1 0 = 0x02 ∨ b.getD 1 0 = 0x03 ∨ b.getD 1 0 = 0x04) →
        (isCompletePacket b = true ↔ b.length = 8)) := by
  refine ⟨fun h => by simp [isCompletePacket, h], fun hfc => ⟨fun h5 => ?_, fun hlen => ?_⟩,
    fun h4 hnfc => ?_⟩
  · have h4 : ¬ b.length < 4 := by omega
    simp only [isCompletePacket]
    rw [if_neg h4, if_pos hfc, if_pos h5]
    simp
  · have h4 : ¬ b.length < 4 := by omega
    have h5 : ¬ 5 < b.length := by omega
    simp only [isCompletePacket]
    rw [if_neg h4, if_pos hfc, if_neg h5]
    simp
    omega
  · have h4' : ¬ b.length < 4 := by omega
    simp only [isCompletePacket]
    rw [if_neg h4', if_neg hnfc]
    simp

/-- C3 witness: a complete read-class frame of length 7 declaring 2 data
bytes is reported complete, via the amended theorem. -/
theorem isCompletePacket_cases_witness :
    (([1, 3, 2, 0, 0, 9, 9] : List Nat).getD 1 0 = 0x01 ∨
      ([1, 3, 2, 0, 0, 9, 9] : List Nat).getD 1 0 = 0x02 ∨
      ([1, 3, 2, 0, 0, 9, 9] : List Nat).getD 1 0 = 0x03 ∨
      ([1, 3, 2, 0, 0, 9, 9] : List Nat).getD 1 0 = 0x04)
    ∧ 5 < ([1, 3, 2, 0, 0, 9, 9] : List Nat).length
    ∧ isCompletePacket [1, 3, 2, 0, 0, 9, 9] = true := by
  refine ⟨by decide, by decide, ?_⟩
  exact ((isCompletePacket_cases [1, 3, 2, 0, 0, 9, 9]).2.1 (by decide)).1 (by decide) |>.mpr
    (by decide)

theorem and128_of_high {fc : Nat} (h1 : 128 ≤ fc) (h2 : fc < 256) : fc &&& 128 = 128 := by
  have hd : fc / 2 ^ 7 % 2 = 1 := by norm_num; omega
  calc fc &&& 128 = fc &&& 2 ^ 7 := by norm_num
    _ = (fc.testBit 7).toNat * 2 ^ 7 := Nat.and_two_pow fc 7
    _ = 128 := by rw [Nat.testBit_to_div_mod, hd]; norm_num

theorem and127_of_high {fc : Nat} (h1 : 128 ≤ fc) (h2 : fc < 256) : fc &&& 127 = fc - 128 := by
  calc fc &&& 127 = fc &&& 2 ^ 7 - 1 := by norm_num
    _ = fc % 2 ^ 7 := Nat.and_pow_two_sub_one_eq_mod fc 7
    _ = fc - 128 := by norm_num; omega

theorem and128_of_low {fc : Nat} (h : fc < 128) : fc &&& 128 = 0 := by
  have ht : fc.testBit 7 = false := Nat.testBit_lt_two_pow (by norm_num; omega)
  calc fc &&& 128 = fc &&& 2 ^ 7 := by norm_num
    _ = (fc.testBit 7).toNat * 2 ^ 7 := Nat.and_two_pow fc 7
    _ = 0 := by rw [ht]; rfl

/-- C4: `parseResponse` fails with the too-short error exactly below 4
bytes, fails the CRC check exactly when 4 bytes are present but the CRC
does not verify, and on a CRC-valid frame whose function-code byte has the
high bit set returns the exception response: high bit stripped, exception
code from byte 2, `byteCount = 0`, empty payload, with no further
slicing. -/
theorem parseResponse_guards (b : List Nat) :
    (parseResponse b = .error .packetTooShort ↔ b.length < 4)
    ∧ (parseResponse b = .error .crcCheckFailed ↔ 4 ≤ b.length ∧ verifyCRC b = false)
    ∧ (4 ≤ b.length → verifyCRC b = true → 128 ≤ b.getD 1 0 → b.getD 1 0 < 256 →
        parseResponse b = .ok ⟨b.getD 0 0, b.getD 1 0 - 128, 0, [], some (b.getD 2 0)⟩) := by
  have okShape : ∀ h4 : ¬ b.length < 4, verifyCRC b = true → ∃ r, parseResponse b = .ok r := by
    intro h4 hcrc
    simp only [parseResponse]
    rw [if_neg h4, if_neg (by simp [hcrc])]
    by_cases hbit : b.getD 1 0 &&& 128 ≠ 0
    · rw [if_pos hbit]; exact ⟨_, rfl⟩
    · rw [if_neg hbit]
      by_cases hfc : b.getD 1 0 = 1 ∨ b.getD 1 0 = 2 ∨ b.getD 1 0 = 3 ∨ b.getD 1 0 = 4
      · rw [if_pos hfc]; exact ⟨_, rfl⟩
      · rw [if_neg hfc]; exact ⟨_, rfl⟩
  have crcShape : ∀ h4 : ¬ b.length < 4, ¬ verifyCRC b = true →
      parseResponse b = .error .crcCheckFailed := by
    intro h4 hcrc
    simp only [parseResponse]
    rw [if_neg h4, if_pos (by simp [hcrc])]
  refine ⟨?_, ?_, fun h4 hcrc hge hlt => ?_⟩
  · by_cases h4 : b.length < 4
    · simp [parseResponse, h4]
    · by_cases hcrc : verifyCRC b = true
      · obtain ⟨r, hr⟩ := okShape h4 hcrc
        simp [hr, h4]
      · simp [crcShape h4 hcrc, h4]
  · by_cases h4 : b.length < 4
    · have hts : parseResponse b = .error .packetTooShort := by simp [parseResponse, h4]
      simp only [hts]
      constructor
      · intro h; cases h
      · rintro ⟨ha, -⟩; omega
    · by_cases hcrc : verifyCRC b = true
      · obtain ⟨r, hr⟩ := okShape h4 hcrc
        simp [hr, hcrc]
      · have hf : verifyCRC b = false := by simpa using hcrc
        simp only [crcShape h4 hcrc]
        simp [hf]
        omega
  · have h4' : ¬ b.length < 4 := by omega
    have hbit : b.getD 1 0 &&& 128 = 128 := and128_of_high hge hlt
    simp only [parseResponse]
    rw [if_neg h4', if_neg (by simp [hcrc]), if_pos (by simp only [hbit]; decide),
      and127_of_high hge hlt]

/-- C4 witness: the exception frame `addCRC [1, 0x83, 2] = [1,131,2,192,241]`
parses to an exception response via the theorem. -/
theorem parseResponse_guards_witness :
    4 ≤ ([1, 131, 2, 192, 241] : List Nat).length
    ∧ verifyCRC [1, 131, 2, 192, 241] = true
    ∧ 128 ≤ ([1, 131, 2, 192, 241] : List Nat).getD 1 0
    ∧ ([1, 131, 2, 192, 241] : List Nat).getD 1 0 < 256
    ∧ parseResponse [1, 131, 2, 192, 241] =
        .ok ⟨([1, 131, 2, 192, 241] : List Nat).getD 0 0,
          ([1, 131, 2, 192, 241] : List Nat).getD 1 0 - 128, 0, [],
          some (([1, 131, 2, 192, 241] : List Nat).getD 2 0)⟩ :=
  ⟨by decide, by decide, by decide, by decide,
    (parseResponse_guards [1, 131, 2, 192, 241]).2.2 (by decide) (by decide)
      (by decide) (by decide)⟩

/-- C5 counterexample: the spec's example reply
`[0x01,0x03,0x04,0x00,0x0A,0x00,0x14,0x4B,0x08]` carries a wrong CRC
trailer (the CRC16 of its first 7 bytes is `0x3EDA`, wire bytes `DA 3E`,
not `4B 08`), so `parseResponse` rejects it with the CRC error instead of
returning the claimed response. -/
theorem parseResponse_example_claim_false :
    parseResponse [0x01, 0x03, 0x04, 0x00, 0x0A, 0x00, 0x14, 0x4B, 0x08]
      = .error .crcCheckFailed
    ∧ parseResponse [0x01, 0x03, 0x04, 0x00, 0x0A, 0x00, 0x14, 0x4B, 0x08]
      ≠ .ok ⟨1, 3, 4, [0x00, 0x0A, 0x00, 0x14], none⟩ := by
  decide

/-- C5 amended: on every CRC-valid non-exception frame of length at least
4, `parseResponse` returns byte-count field and `bytes[3 .. len-2]` for the
four read-class codes, and `len - 4` with `bytes[2 .. len-2]` for every
other code; the concrete example holds with the corrected trailer `DA 3E`
(see the witness). -/
theorem parseResponse_payload (b : List Nat) (h4 : 4 ≤ b.length)
    (hcrc : verifyCRC b = true) (hlow : b.getD 1 0 < 128) :
    ((b.getD 1 0 = 0x01 ∨ b.getD 1 0 = 0x02 ∨ b.getD 1 0 = 0x03 ∨ b.getD 1 0 = 0x04) →
      parseResponse b = .ok ⟨b.getD 0 0, b.getD 1 0, b.getD 2 0,
        (b.take (b.length - 2)).drop 3, none⟩)
    ∧ (¬(b.getD 1 0 = 0x01 ∨ b.getD 1 0 = 0x02 ∨ b.getD 1 0 = 0x03 ∨ b.getD 1 0 = 0x04) →
      parseResponse b = .ok ⟨b.getD 0 0, b.getD 1 0, b.length - 4,
        (b.take (b.length - 2)).drop 2, none⟩) := by
  have h4' : ¬ b.length < 4 := by omega
  have hbit : b.getD 1 0 &&& 128 = 0 := and128_of_low hlow
  constructor <;> intro hfc <;> simp only [parseResponse] <;>
    rw [if_neg h4', if_neg (by simp [hcrc]), if_neg (by simp only [hbit]; decide)]
  · rw [if_pos hfc]
  · rw [if_neg hfc]

/-- C5 witness: the spec's example frame with its CRC trailer corrected to
`DA 3E` parses to the claimed response, via the amended theorem. -/
theorem parseResponse_payload_witness :
    4 ≤ ([1, 3, 4, 0, 10, 0, 20, 218, 62] : List Nat).length
    ∧ verifyCRC [1, 3, 4, 0, 10, 0, 20, 218, 62] = true
    ∧ ([1, 3, 4, 0, 10, 0, 20, 218, 62] : List Nat).getD 1 0 < 128
    ∧ parseResponse [1, 3, 4, 0, 10, 0, 20, 218, 62] = .ok ⟨1, 3, 4, [0, 10, 0, 20], none⟩ :=
  ⟨by decide, by decide, by decide,
    ((parseResponse_payload [1, 3, 4, 0, 10, 0, 20, 218, 62] (by decide) (by decide)
      (by decide)).1 (by decide)).trans (by decide)⟩

/-- C6 counterexample: `makeRequest` with function code `0x0F` on
`[1,0,1,0,1]` packs the coil bits LSB-first, producing data byte `0x15`
(bits 0, 2, 4) and CRC trailer `2F 5E`, not the spec's quoted frame
`01 0F 00 20 00 05 01 1A 9F 5B` (whose data byte `0x1A` encodes
`[0,1,0,1,1]`). -/
theorem makeRequest_coils_example_claim_false :
    makeRequest 1 0x0F 0x0020 5 (some [1, 0, 1, 0, 1])
      ≠ .ok [0x01, 0x0F, 0x00, 0x20, 0x00, 0x05, 0x01, 0x1A, 0x9F, 0x5B]
    ∧ makeRequest 1 0x0F 0x0020 5 (some [1, 0, 1, 0, 1])
      = .ok [0x01, 0x0F, 0x00, 0x20, 0x00, 0x05, 0x01, 0x15, 0x2F, 0x5E] := by
  decide

/-- C6 amended: `makeRequest` with function code `0x0F` fails with the
coils-data-required error exactly when `writeData` is absent, fails with
the coils-count error exactly when the array length is outside `[1, 1968]`,
and otherwise builds the frame whose quantity field is `writeData.length`
(regardless of the `quantity` argument), followed by the byte-count field
`ceil(length/8)` and the LSB-first packed coil bytes, CRC appended; the
concrete example yields `01 0F 00 20 00 05 01 15 2F 5E`. -/
theorem makeRequest_coils_spec (s a q : Nat) :
    (makeRequest s 0x0F a q none = .error .writeDataRequiredCoils)
    ∧ (∀ w, makeRequest s 0x0F a q (some w) = .error .coilsCountInvalid
        ↔ (w.length < 1 ∨ 1968 < w.length))
    ∧ (∀ w, 1 ≤ w.length → w.length ≤ 1968 →
        makeRequest s 0x0F a q (some w) = .ok (addCRC ((s &&& 0xFF) :: 0x0F ::
          (writeUInt16BE (a &&& 0xFFFF) ++ writeUInt16BE w.length
            ++ ((w.length + 7) / 8 :: packCoils w w.length))))) := by
  refine ⟨rfl, fun w => ?_, fun w h1 h2 => ?_⟩
  · by_cases h : w.length < 1 ∨ w.length > 1968
    · simp only [makeRequest]
      rw [if_pos h]
      simpa using h
    · simp only [makeRequest]
      rw [if_neg h]
      constructor
      · intro hc; cases hc
      · intro hc; exact absurd hc (by simpa using h)
  · have h : ¬(w.length < 1 ∨ w.length > 1968) := by omega
    simp only [makeRequest]
    rw [if_neg h]

/-- C6 witness: the corrected concrete example via the amended theorem. -/
theorem makeRequest_coils_spec_witness :
    1 ≤ ([1, 0, 1, 0, 1] : List Nat).length
    ∧ ([1, 0, 1, 0, 1] : List Nat).length ≤ 1968
    ∧ makeRequest 1 0x0F 0x0020 5 (some [1, 0, 1, 0, 1])
        = .ok [0x01, 0x0F, 0x00, 0x20, 0x00, 0x05, 0x01, 0x15, 0x2F, 0x5E] :=
  ⟨by decide, by decide,
    ((makeRequest_coils_spec 1 0x0020 5).2.2 [1, 0, 1, 0, 1] (by decide)
      (by decide)).trans (by decide)⟩

theorem crcRound_lt (c : Nat) (h : c < 65536) : crcRound c < 65536 := by
  unfold crcRound
  have h2 : c >>> 1 < 65536 := by
    rw [Nat.shiftRight_eq_div_pow]
    omega
  split
  · exact Nat.xor_lt_two_pow (n := 16) h2 (by norm_num)
  · exact h2

theorem crcLoop_lt (j : Nat) : ∀ c, c < 65536 → crcLoop c j < 65536 := by
  induction j with
  | zero => intro c hc; exact hc
  | succ j ih => intro c hc; exact ih (crcRound c) (crcRound_lt c hc)

theorem calculateCRC16_lt (l : List Nat) (hb : ∀ x ∈ l, x < 256) :
    calculateCRC16 l < 65536 := by
  unfold calculateCRC16
  have main : ∀ (l : List Nat) (c : Nat), c < 65536 → (∀ x ∈ l, x < 256) →
      l.foldl (fun crc b => crcLoop (crc ^^^ b) 8) c < 65536 := by
    intro l
    induction l with
    | nil => intro c hc _; exact hc
    | cons b l ih =>
      intro c hc hball
      have hb' : b < 65536 := by
        have := hball b (by simp)
        omega
      exact ih (crcLoop (c ^^^ b) 8)
        (crcLoop_lt 8 _ (Nat.xor_lt_two_pow (n := 16) hc hb'))
        (fun x hx => hball x (by simp [hx]))
  exact main l 0xFFFF (by norm_num) hb

/-- C2: appending the little-endian CRC16 trailer and then verifying always
succeeds: for every byte buffer, `verifyCRC (addCRC b) = true`. -/
theorem verifyCRC_addCRC (data : List Nat) (hb : ∀ x ∈ data, x < 256) :
    verifyCRC (addCRC data) = true := by
  have hc : calculateCRC16 data < 65536 := calculateCRC16_lt data hb
  unfold verifyCRC addCRC writeUInt16LE
  have hlen : (data ++ [calculateCRC16 data % 256, calculateCRC16 data >>> 8 % 256]).length
      = data.length + 2 := by simp
  rw [hlen]
  rw [if_neg (by omega)]
  have htake : (data ++ [calculateCRC16 data % 256, calculateCRC16 data >>> 8 % 256]).take
      (data.length + 2 - 2) = data := by
    rw [Nat.add_sub_cancel]
    exact List.take_left' rfl
  rw [htake]
  have hget1 : (data ++ [calculateCRC16 data % 256, calculateCRC16 data >>> 8 % 256]).getD
      (data.length + 2 - 2) 0 = calculateCRC16 data % 256 := by
    rw [Nat.add_sub_cancel, List.getD_append_right _ _ _ _ (Nat.le_refl _),
      Nat.sub_self]
    rfl
  have hget2 : (data ++ [calculateCRC16 data % 256, calculateCRC16 data >>> 8 % 256]).getD
      (data.length + 2 - 2 + 1) 0 = calculateCRC16 data >>> 8 % 256 := by
    rw [Nat.add_sub_cancel, List.getD_append_right _ _ _ _ (by omega),
      show data.length + 1 - data.length = 1 from by omega]
    rfl
  unfold readUInt16LE
  rw [hget1, hget2]
  have hsh : calculateCRC16 data >>> 8 = calculateCRC16 data / 256 := by
    rw [Nat.shiftRight_eq_div_pow]
  rw [hsh]
  simp only [decide_eq_true_eq]
  omega

/-- C2 witness: the round trip on the concrete buffer `[1, 3, 0, 0, 0, 2]`. -/
theorem verifyCRC_addCRC_witness :
    (∀ x ∈ ([1, 3, 0, 0, 0, 2] : List Nat), x < 256)
    ∧ verifyCRC (addCRC [1, 3, 0, 0, 0, 2]) = true :=
  ⟨by decide, verifyCRC_addCRC [1, 3, 0, 0, 0, 2] (by decide)⟩

end ModbusRTU

namespace DeviceRTU

/-- C1 counterexample: a handoff accepted in the idle state whose poll
routine fails does not complete the release sequence — the error is
rethrown before `oGate`, so no offline timer is armed and the busy flag
(`shares.progress`) is left set, while the claim requires a fresh timer and
a cleared busy flag in all cases. -/
theorem inputBus_failure_no_release :
    (inputBus ⟨false, false, false, false, false, 0, 0⟩ false).1.timerArmed = false
    ∧ (inputBus ⟨false, false, false, false, false, 0, 0⟩ false).1.timerHandle = false
    ∧ (inputBus ⟨false, false, false, false, false, 0, 0⟩ false).1.progress = true
    ∧ (inputBus ⟨false, false, false, false, false, 0, 0⟩ false).2 = true := by
  decide

/-- C1 amended: on an accepted handoff the release sequence (arm a fresh
offline timer, clear the busy flag, render) runs only when the queue drain
and poll succeed, in which case `online` is also set; when the poll fails,
`online` is set to false and the error is rethrown with no new timer armed
and the busy flag still set.  A control acquisition cancels a pending
offline timer without changing `online`. -/
theorem inputBus_release_spec (s : DState) (hp : s.process = false)
    (hinv : s.timerArmed = true → s.timerHandle = true) :
    ((inputBus s true).1.timerArmed = true ∧ (inputBus s true).1.timerHandle = true
      ∧ (inputBus s true).1.progress = false ∧ (inputBus s true).1.online = true
      ∧ (inputBus s true).1.renders = s.renders + 2 ∧ (inputBus s true).2 = false)
    ∧ ((inputBus s false).1.online = false ∧ (inputBus s false).1.timerArmed = false
      ∧ (inputBus s false).1.progress = true ∧ (inputBus s false).1.renders = s.renders + 1
      ∧ (inputBus s false).2 = true)
    ∧ ((iGate s).timerArmed = false ∧ (iGate s).online = s.online) := by
  by_cases hth : s.timerHandle = true <;> by_cases hta : s.timerArmed = true <;>
    simp_all [inputBus, iGate, oGate]

/-- C1 witness: the amended theorem applied to the idle state with an armed
offline timer. -/
theorem inputBus_release_spec_witness :
    (⟨false, false, false, true, true, 0, 0⟩ : DState).process = false
    ∧ ((⟨false, false, false, true, true, 0, 0⟩ : DState).timerArmed = true →
        (⟨false, false, false, true, true, 0, 0⟩ : DState).timerHandle = true)
    ∧ (((inputBus ⟨false, false, false, true, true, 0, 0⟩ true).1.timerArmed = true
        ∧ (inputBus ⟨false, false, false, true, true, 0, 0⟩ true).1.timerHandle = true
        ∧ (inputBus ⟨false, false, false, true, true, 0, 0⟩ true).1.progress = false
        ∧ (inputBus ⟨false, false, false, true, true, 0, 0⟩ true).1.online = true
        ∧ (inputBus ⟨false, false, false, true, true, 0, 0⟩ true).1.renders =
            (⟨false, false, false, true, true, 0, 0⟩ : DState).renders + 2
        ∧ (inputBus ⟨false, false, false, true, true, 0, 0⟩ true).2 = false)
      ∧ ((inputBus ⟨false, false, false, true, true, 0, 0⟩ false).1.online = false
        ∧ (inputBus ⟨false, false, false, true, true, 0, 0⟩ false).1.timerArmed = false
        ∧ (inputBus ⟨false, false, false, true, true, 0, 0⟩ false).1.progress = true
        ∧ (inputBus ⟨false, false, false, true, true, 0, 0⟩ false).1.renders =
            (⟨false, false, false, true, true, 0, 0⟩ : DState).renders + 1
        ∧ (inputBus ⟨false, false, false, true, true, 0, 0⟩ false).2 = true)
      ∧ ((iGate ⟨false, false, false, true, true, 0, 0⟩).timerArmed = false
        ∧ (iGate ⟨false, false, false, true, true, 0, 0⟩).online =
            (⟨false, false, false, true, true, 0, 0⟩ : DState).online)) :=
  ⟨rfl, by decide, inputBus_release_spec ⟨false, false, false, true, true, 0, 0⟩ rfl (by decide)⟩

/-- C8: the busy guard of `inputBus` is dead code — the guard reads
`shares.process`, but the flag the gates set and clear is
`shares.progress`, so a handoff arriving while a cycle is in flight
(`progress = true`, `process = false`) is processed as a full cycle (two
renders) instead of being ignored; moreover no reachable transition ever
sets `process`. -/
theorem inputBus_busy_guard_dead :
    (⟨false, true, true, false, false, 0, 0⟩ : DState).progress = true
    ∧ inputBus ⟨false, true, true, false, false, 0, 0⟩ true
        ≠ (⟨false, true, true, false, false, 0, 0⟩, false)
    ∧ (inputBus ⟨false, true, true, false, false, 0, 0⟩ true).1.renders = 2
    ∧ ∀ (s : DState) (ok : Bool), (inputBus s ok).1.process = s.process := by
  refine ⟨rfl, by decide, by decide, ?_⟩
  intro s ok
  by_cases h : s.process = true <;> cases ok <;> simp [inputBus, iGate, oGate, h]

theorem addAll_spec (ts : List QTask) : ∀ s : QState,
    s.queueIndex ≤ (ts.foldl (fun acc tsk => actionAddQueue tsk acc) s).queueIndex
    ∧ ∃ new, (ts.foldl (fun acc tsk => actionAddQueue tsk acc) s).queue = s.queue ++ new
        ∧ ∀ p ∈ new, s.queueIndex ≤ p.1 := by
  induction ts with
  | nil => exact fun s => ⟨Nat.le_refl _, [], by simp, by simp⟩
  | cons t ts ih =>
    intro s
    obtain ⟨hidx, new, hq, hkeys⟩ := ih (actionAddQueue t s)
    refine ⟨?_, (s.queueIndex, t) :: new, ?_, ?_⟩
    · exact le_trans (by simp [actionAddQueue]) hidx
    · simpa [actionAddQueue] using hq
    · intro p hp
      rcases List.mem_cons.mp hp with hp | hp
      · subst hp; exact Nat.le_refl _
      · have := hkeys p hp
        simp only [actionAddQueue] at this
        omega

theorem runQueueGo_spec :
    ∀ (pend rest : List (Nat × QTask)) (N idx : Nat),
      (pend.map Prod.fst).Nodup →
      (∀ p ∈ pend, p.1 < N) →
      (∀ p ∈ rest, N ≤ p.1) →
      N ≤ idx →
      (runQueueGo (pend.map Prod.fst) ⟨pend ++ rest, idx⟩).2
          = pend.map (fun e => (e.1, e.2.run))
      ∧ (∀ p ∈ (runQueueGo (pend.map Prod.fst) ⟨pend ++ rest, idx⟩).1.queue, N ≤ p.1) := by
  intro pend
  induction pend with
  | nil =>
    intro rest N idx _ _ hrest _
    exact ⟨rfl, fun p hp => hrest p (by simpa using hp)⟩
  | cons e pend ih =>
    obtain ⟨k, t⟩ := e
    intro rest N idx hnd hpend hrest hNidx
    have hk : k < N := hpend (k, t) (List.mem_cons_self _ _)
    have hknotin : k ∉ pend.map Prod.fst := by
      have := hnd
      simp only [List.map_cons, List.nodup_cons] at this
      exact this.1
    have hndtail : (pend.map Prod.fst).Nodup := by
      have := hnd
      simp only [List.map_cons, List.nodup_cons] at this
      exact this.2
    have hlook : (((k, t) :: (pend ++ rest)).lookup k) = some t := by
      simp [List.lookup]
    obtain ⟨hidx1, new, hq1, hkeysnew⟩ :=
      addAll_spec t.spawns ⟨(k, t) :: (pend ++ rest), idx⟩
    have hfilter :
        ((t.spawns.foldl (fun acc tsk => actionAddQueue tsk acc)
            ⟨(k, t) :: (pend ++ rest), idx⟩).queue.filter (fun e => e.1 != k))
          = pend ++ (rest ++ new) := by
      rw [hq1]
      show List.filter (fun e => e.1 != k) (((k, t) :: (pend ++ rest)) ++ new) = _
      rw [List.cons_append, List.filter_cons]
      have hself : (((k, t) : Nat × QTask).1 != k) = false := by simp
      rw [hself]
      simp only [Bool.false_eq_true, if_false]
      rw [List.filter_eq_self.mpr, List.append_assoc]
      intro p hp
      have hne : p.1 ≠ k := by
        rcases List.mem_append.mp hp with hp' | hpnew
        · rcases List.mem_append.mp hp' with hpp | hpr
          · intro hkeq
            exact hknotin (hkeq ▸ List.mem_map_of_mem Prod.fst hpp)
          · have := hrest p hpr
            omega
        · have h1 := hkeysnew p hpnew
          simp only at h1
          omega
      simpa using hne
    have hstep :
        runQueueGo (((k, t) :: pend).map Prod.fst) ⟨((k, t) :: pend) ++ rest, idx⟩
          = ((runQueueGo (pend.map Prod.fst)
                ⟨pend ++ (rest ++ new),
                  (t.spawns.foldl (fun acc tsk => actionAddQueue tsk acc)
                    ⟨(k, t) :: (pend ++ rest), idx⟩).queueIndex⟩).1,
              (k, t.run) :: (runQueueGo (pend.map Prod.fst)
                ⟨pend ++ (rest ++ new),
                  (t.spawns.foldl (fun acc tsk => actionAddQueue tsk acc)
                    ⟨(k, t) :: (pend ++ rest), idx⟩).queueIndex⟩).2) := by
      simp only [List.map_cons, List.cons_append, runQueueGo, hlook, hfilter]
    obtain ⟨ih1, ih2⟩ := ih (rest ++ new) N
      (t.spawns.foldl (fun acc tsk => actionAddQueue tsk acc)
        ⟨(k, t) :: (pend ++ rest), idx⟩).queueIndex
      hndtail
      (fun p hp => hpend p (List.mem_cons_of_mem _ hp))
      (fun p hp => by
        rcases List.mem_append.mp hp with hpr | hpnew
        · exact hrest p hpr
        · have h1 := hkeysnew p hpnew
          simp only at h1
          omega)
      (by simp only at hidx1; omega)
    rw [hstep]
    exact ⟨by simp [ih1], ih2⟩

/-- C7: `runQueue` executes exactly the entries present when the snapshot
of keys is taken, in enqueue (key) order, settling each exactly once with
its task's result or thrown error; a rejected task does not stop the drain,
and every entry a task enqueues during the drain receives a key at or above
the pre-drain `queueIndex`, remains in the queue, and is not executed in
this pass. -/
theorem runQueue_spec (s : QState)
    (hnd : (s.queue.map Prod.fst).Nodup)
    (hlt : ∀ p ∈ s.queue, p.1 < s.queueIndex) :
    (runQueue s).2 = s.queue.map (fun e => (e.1, e.2.run))
    ∧ ∀ p ∈ (runQueue s).1.queue, s.queueIndex ≤ p.1 := by
  obtain ⟨queue, idx⟩ := s
  by_cases hemp : queue.isEmpty
  · have hq : queue = [] := by simpa using hemp
    subst hq
    simp [runQueue]
  · have hrun : runQueue ⟨queue, idx⟩ = runQueueGo (queue.map Prod.fst) ⟨queue, idx⟩ := by
      simp [runQueue, hemp]
    have h := runQueueGo_spec queue [] idx idx hnd (fun p hp => hlt p hp) (by simp)
      (Nat.le_refl _)
    rw [hrun]
    constructor
    · have := h.1
      simpa using this
    · intro p hp
      refine h.2 p ?_
      simpa using hp

/-- C7 witness: three queued actions — the second of which throws and the
third of which enqueues a task mid-drain — are executed in order, each
settled once, and the mid-drain enqueue stays for the next pass. -/
theorem runQueue_spec_witness :
    ((([(1, QTask.mk (.resolved 10) []), (2, QTask.mk (.rejected 7) []),
        (3, QTask.mk (.resolved 30) [QTask.mk (.resolved 99) []])] :
          List (Nat × QTask)).map Prod.fst).Nodup)
    ∧ (∀ p ∈ ([(1, QTask.mk (.resolved 10) []), (2, QTask.mk (.rejected 7) []),
        (3, QTask.mk (.resolved 30) [QTask.mk (.resolved 99) []])] :
          List (Nat × QTask)), p.1 < 4)
    ∧ ((runQueue ⟨[(1, QTask.mk (.resolved 10) []), (2, QTask.mk (.rejected 7) []),
          (3, QTask.mk (.resolved 30) [QTask.mk (.resolved 99) []])], 4⟩).2
        = ([(1, QTask.mk (.resolved 10) []), (2, QTask.mk (.rejected 7) []),
            (3, QTask.mk (.resolved 30) [QTask.mk (.resolved 99) []])] :
              List (Nat × QTask)).map (fun e => (e.1, e.2.run))
      ∧ ∀ p ∈ (runQueue ⟨[(1, QTask.mk (.resolved 10) []), (2, QTask.mk (.rejected 7) []),
          (3, QTask.mk (.resolved 30) [QTask.mk (.resolved 99) []])], 4⟩).1.queue,
          4 ≤ p.1) :=
  ⟨by decide, by decide,
    runQueue_spec ⟨[(1, QTask.mk (.resolved 10) []), (2, QTask.mk (.rejected 7) []),
      (3, QTask.mk (.resolved 30) [QTask.mk (.resolved 99) []])], 4⟩ (by decide) (by decide)⟩

end DeviceRTU
